import Mathlib

/-!
Shallow embedding of the Draupnir command-argument parsing engine
(`ArgumentParsing.ts`: `ArgumentStream`, presentation-type registry,
`simpleTypeValidator`, `union`, `RestParser`, `KeywordParser`,
`ArgumentListParser`), together with theorems settling the frozen claims.

JavaScript runtime behaviour that the source relies on is embedded
explicitly: property access on objects is modelled by association lists,
uncaught TypeErrors are modelled as a `thrown` result variant, and the
default rendering of plain objects in template strings is the constant
"[object Object]".
-/

namespace Draupnir

/-- Modelled from the spec: the Token sum type (`ReadItem` from
`CommandReader.ts`, which is not under src/). A token is either a plain
string value or a `Keyword` designator object. -/
inductive ReadItem where
  | value (text : String)
  | keyword (designator : String)
deriving DecidableEq

/-- `item instanceof Keyword` from the source. -/
def ReadItem.isKeywordItem : ReadItem → Bool
  | .keyword _ => true
  | .value _ => false

/-- Modelled from the spec: JavaScript truthiness of a `ReadItem`.
A plain string is falsy exactly when it is empty; a `Keyword` object is
always truthy. Used by the `while (stream.peekItem())` loop of
`RestParser.parseRest`. -/
def truthy : ReadItem → Bool
  | .value s => !(s == "")
  | .keyword _ => true

/-- Modelled from the spec: how a `ReadItem` renders inside a JavaScript
template string; a string renders as itself, a `Keyword` class instance
(declared in `CommandReader.ts`, not under src/, with no custom
rendering) renders as the default "[object Object]". -/
def jsItemString : ReadItem → String
  | .value s => s
  | .keyword _ => "[object Object]"

/-- Modelled from the spec: the stream cursor (`SuperCoolStream` in
`CommandReader.ts`, not under src/): it owns a source sequence and a
zero-based position; `peekItem` does not advance, `readItem` advances by
one, and `rest()` (defined on `ArgumentStream` in the source) is the
slice of the source from the current position onward. -/
structure ArgumentStream where
  source : List ReadItem
  position : Nat
deriving DecidableEq

/-- `peekItem`: the token at the current position, if any. -/
def ArgumentStream.peekItem (s : ArgumentStream) : Option ReadItem :=
  s.source.get? s.position

/-- `ArgumentStream.rest()`: `this.source.slice(this.position)`. -/
def ArgumentStream.restItems (s : ArgumentStream) : List ReadItem :=
  s.source.drop s.position

/-- Modelled from the spec: `CommandResult<true>` as returned by a
validator (`Validation.ts` is not under src/): a two-variant
success/failure container whose failure carries a `CommandError`
message. -/
inductive ValidationResult where
  | ok
  | err (message : String)
deriving DecidableEq

/-- `result.isOk()`. -/
def ValidationResult.isOk : ValidationResult → Bool
  | .ok => true
  | .err _ => false

/-- `PredicateIsParamater = (readItem: ReadItem) => CommandResult<true>`. -/
def PredicateIsParamater := ReadItem → ValidationResult

/-- `PresentationType { validator, name }`. -/
structure PresentationType where
  validator : PredicateIsParamater
  name : String

/-- `simpleTypeValidator(name, predicate)` from the source: wraps a
boolean predicate, producing the uniform failure message on rejection. -/
def simpleTypeValidator (name : String) (predicate : ReadItem → Bool) : PredicateIsParamater :=
  fun readItem =>
    if predicate readItem then
      ValidationResult.ok
    else
      ValidationResult.err
        ("Was expecting a match for the presentation type: " ++ name
          ++ " but got " ++ jsItemString readItem ++ ".")

/-- The `PRESENTATION_TYPES` map, modelled by explicit state passing:
an association list whose first match is the map entry (registration
guards against duplicates, so keys are unique). -/
abbrev PresentationTypeRegistry := List (String × PresentationType)

/-- `PRESENTATION_TYPES.has(name)`. -/
def registryHas (r : PresentationTypeRegistry) (name : String) : Bool :=
  r.any (fun e => e.1 == name)

/-- `PRESENTATION_TYPES.get(name)`. -/
def registryGet (r : PresentationTypeRegistry) (name : String) : Option PresentationType :=
  (r.find? (fun e => e.1 == name)).map (fun e => e.2)

/-- Result of a registry operation: success, or a thrown `TypeError`
(the source throws; the throw is embedded as a value). -/
inductive RegistryResult (α : Type) where
  | ok (v : α)
  | thrown (message : String)

/-- `registerPresentationType(name, presentationType)` from the source:
throws a `TypeError` if the name is already present, otherwise inserts.
Returns the outcome together with the registry state afterwards. -/
def registerPresentationType (r : PresentationTypeRegistry) (name : String)
    (presentationType : PresentationType) : RegistryResult Unit × PresentationTypeRegistry :=
  if registryHas r name then
    (RegistryResult.thrown
      ("presentation type with the name: " ++ name ++ " has already been registered"), r)
  else
    (RegistryResult.ok (), r ++ [(name, presentationType)])

/-- `findPresentationType(name)` from the source: throws a `TypeError`
if the name was not registered. -/
def findPresentationType (r : PresentationTypeRegistry) (name : String) :
    RegistryResult PresentationType :=
  match registryGet r name with
  | some entry => RegistryResult.ok entry
  | none =>
      RegistryResult.thrown
        ("presentation type with the name: " ++ name ++ " was not registered")

/-- The built-in "Keyword" presentation type registered at module load. -/
def KeywordPresentationType : PresentationType :=
  ⟨simpleTypeValidator "Keyword" ReadItem.isKeywordItem, "Keyword"⟩

/-- The built-in "string" presentation type registered at module load
(`typeof item === 'string'`). -/
def stringPresentationType : PresentationType :=
  ⟨simpleTypeValidator "string" (fun it =>
    match it with
    | .value _ => true
    | .keyword _ => false), "string"⟩

/-- The registry state after the two `makePresentationType` calls that
run at module load in the source. -/
def initialRegistry : PresentationTypeRegistry :=
  (registerPresentationType
    (registerPresentationType [] "Keyword" KeywordPresentationType).2
    "string" stringPresentationType).2

/-- `ParamaterDescription` (spelling as in the source). -/
structure ParamaterDescription where
  name : String
  description : Option String := none
  acceptor : PresentationType

/-- `KeywordPropertyDescription extends ParamaterDescription`. -/
structure KeywordPropertyDescription extends ParamaterDescription where
  isFlag : Bool

/-- `KeywordsDescription`: keyword name to description entries, plus the
`allowOtherKeys` boolean property. -/
structure KeywordsDescription where
  keys : List (String × KeywordPropertyDescription)
  allowOtherKeys : Bool

/-- Result of the JavaScript property access
`this.description[item.designator]`: a description object, the boolean
`allowOtherKeys` property, or `undefined` for an unknown key. -/
inductive KeywordsIndexResult where
  | desc (d : KeywordPropertyDescription)
  | booleanProp (b : Bool)
  | undefinedProp

/-- `this.description[name]` on a `KeywordsDescription` object. -/
def KeywordsDescription.index (kd : KeywordsDescription) (name : String) : KeywordsIndexResult :=
  if name == "allowOtherKeys" then
    KeywordsIndexResult.booleanProp kd.allowOtherKeys
  else
    match kd.keys.find? (fun e => e.1 == name) with
    | some e => KeywordsIndexResult.desc e.2
    | none => KeywordsIndexResult.undefinedProp

/-- A property value stored in a `DestructableRest` object: a single
`ReadItem`, an array of `ReadItem`s, or the boolean `true` recorded for
a flag. -/
inductive RestProperty where
  | item (i : ReadItem)
  | items (l : List ReadItem)
  | flagTrue
deriving DecidableEq

/-- `DestructableRest`: a JavaScript object with a `rest` property and
arbitrary keyword-named properties, modelled as an association list of
property assignments (first match is the property value; assignment
overwrites in place). -/
structure DestructableRest where
  props : List (String × RestProperty)
deriving DecidableEq

/-- JavaScript property assignment on an association list: overwrite the
existing entry for the name, or append a new entry. -/
def setProp : List (String × RestProperty) → String → RestProperty →
    List (String × RestProperty)
  | [], name, v => [(name, v)]
  | e :: tl, name, v =>
      if e.1 == name then (e.1, v) :: tl else e :: setProp tl name v

/-- `destructable[name] = v`. -/
def DestructableRest.set (d : DestructableRest) (name : String) (v : RestProperty) :
    DestructableRest :=
  ⟨setProp d.props name v⟩

/-- `destructable[name]` property read. -/
def DestructableRest.get (d : DestructableRest) (name : String) : Option RestProperty :=
  (d.props.find? (fun e => e.1 == name)).map (fun e => e.2)

/-- `destructable.rest.push(item)`: succeeds only when the `rest`
property currently holds an array; any other value (a single item, a
boolean, or an absent property) has no `push` method, which in
JavaScript is a thrown `TypeError`, modelled by `none`. -/
def DestructableRest.pushRest (d : DestructableRest) (i : ReadItem) : Option DestructableRest :=
  match d.get "rest" with
  | some (RestProperty.items l) => some (d.set "rest" (RestProperty.items (l ++ [i])))
  | _ => none

/-- `CommandError` / `ArgumentParseError`: a plain message error, or an
error bound to the offending parameter description and a snapshot of the
argument stream. -/
inductive CommandError where
  | simple (message : String)
  | argument (paramater : ParamaterDescription) (stream : ArgumentStream) (message : String)

/-- Outcome of a parse-level operation: success, a `CommandResult` error
value, or an uncaught JavaScript exception (modelled as a value). -/
inductive ParseResult (α : Type) where
  | ok (v : α)
  | err (e : CommandError)
  | thrown (message : String)

/-- The `ArgumentParseError` message produced by `KeywordParser` when a
non-flag keyword has no associated value. -/
def missingKeywordValueMessage (name : String) : String :=
  "An associated argument was not provided for the keyword " ++ name ++ "."

/-- The loop body of `KeywordParser.parseRest`. `src` is the stream
source and `pos` the cursor position; `rem` mirrors the unread remainder
of the stream (`rem = src.drop pos`), so `peekItem` is `rem.head?` and
`readItem` steps to the tail while advancing `pos`. Stream snapshots
stored in errors are rebuilt from `src` and `pos`. Each iteration reads
one item; a `Keyword` looks itself up in the governing description
(`booleanProp` hits the explicit `throw`, `undefinedProp` hits the
undefined property accesses of the source, both modelled as `thrown`),
then consumes a following non-keyword item as its value if one exists,
and otherwise records `true` for a flag or fails for a non-flag; a
non-keyword item is pushed onto `destructable.rest`. -/
def kwLoop (kd : KeywordsDescription) (src : List ReadItem) :
    DestructableRest → Nat → List ReadItem → ParseResult DestructableRest
  | d, _, [] => ParseResult.ok d
  | d, pos, ReadItem.value v :: tl =>
      match d.pushRest (ReadItem.value v) with
      | some d2 => kwLoop kd src d2 (pos + 1) tl
      | none => ParseResult.thrown "TypeError: destructable.rest.push is not a function"
  | d, pos, ReadItem.keyword g :: ReadItem.value v :: tl2 =>
      match kd.index g with
      | KeywordsIndexResult.booleanProp _ =>
          ParseResult.thrown "Shouldn't be a boolean mate"
      | KeywordsIndexResult.undefinedProp =>
          ParseResult.thrown
            "TypeError: cannot read properties of undefined (reading name)"
      | KeywordsIndexResult.desc descr =>
          kwLoop kd src (d.set descr.name (RestProperty.item (ReadItem.value v)))
            (pos + 2) tl2
  | d, pos, ReadItem.keyword g :: tl =>
      match kd.index g with
      | KeywordsIndexResult.booleanProp _ =>
          ParseResult.thrown "Shouldn't be a boolean mate"
      | KeywordsIndexResult.undefinedProp =>
          ParseResult.thrown
            "TypeError: cannot read properties of undefined (reading isFlag)"
      | KeywordsIndexResult.desc descr =>
          if descr.isFlag then
            kwLoop kd src (d.set descr.name RestProperty.flagTrue) (pos + 1) tl
          else
            ParseResult.err
              (CommandError.argument descr.toParamaterDescription ⟨src, pos + 1⟩
                (missingKeywordValueMessage descr.name))

/-- `KeywordParser.parseRest(itemStream)` from the source: starts from
`{ rest: [] }` and scans the whole remainder of the stream. -/
def KeywordParser.parseRest (kd : KeywordsDescription) (s : ArgumentStream) :
    ParseResult DestructableRest :=
  kwLoop kd s.source ⟨[("rest", RestProperty.items [])]⟩ s.position
    (s.source.drop s.position)

/-- The `while (stream.peekItem()) { items.push(stream.readItem()) }`
loop of the plain `RestParser`: collects leading truthy items (the loop
condition is JavaScript truthiness, so it also stops on an empty-string
token). -/
def restCollect : List ReadItem → List ReadItem
  | [] => []
  | it :: tl => if truthy it then it :: restCollect tl else []

/-- `RestParser.parseRest(stream)` from the source: always returns
`Ok({ rest: items })`. -/
def RestParser.parseRest (s : ArgumentStream) : ParseResult DestructableRest :=
  ParseResult.ok ⟨[("rest", RestProperty.items (restCollect (s.source.drop s.position)))]⟩

/-- The rest strategy handed to `ArgumentListParser`: the plain
`RestParser` or a `KeywordParser` over a `KeywordsDescription` (dynamic
dispatch on the class hierarchy, modelled as a sum). -/
inductive RestStrategy where
  | plainRest
  | keywordRest (kd : KeywordsDescription)

/-- `restParser.parseRest(itemStream)` dispatch. -/
def runRestStrategy : RestStrategy → ArgumentStream → ParseResult DestructableRest
  | RestStrategy.plainRest, s => RestParser.parseRest s
  | RestStrategy.keywordRest kd, s => KeywordParser.parseRest kd s

/-- `ParsedArguments { immediateArguments, rest? }`. -/
structure ParsedArguments where
  immediateArguments : List ReadItem
  rest : Option DestructableRest

/-- The `ArgumentParseError` message produced by the positional loop
when the stream is exhausted before a parameter is satisfied. -/
def missingParamaterMessage (name : String) : String :=
  "An argument for the paramater " ++ name ++ " was expected but was not provided."

/-- The positional `for (const paramater of descriptions)` loop of
`ArgumentListParser.makeParseFunction`. `src` is the full argument list
and `pos` the cursor; `rem` mirrors the unread remainder
(`rem = src.drop pos`). An exhausted stream or a validator failure stops
the loop with an `ArgumentParseError` bound to the current description
and the stream snapshot; acceptance consumes the token. On success the
final cursor position is returned. -/
def argLoop (src : List ReadItem) :
    Nat → List ReadItem → List ParamaterDescription → ParseResult Nat
  | pos, _, [] => ParseResult.ok pos
  | pos, [], p :: _ =>
      ParseResult.err
        (CommandError.argument p ⟨src, pos⟩ (missingParamaterMessage p.name))
  | pos, it :: tl, p :: ds =>
      match p.acceptor.validator it with
      | ValidationResult.err m =>
          ParseResult.err (CommandError.argument p ⟨src, pos⟩ m)
      | ValidationResult.ok => argLoop src (pos + 1) tl ds

/-- The parse function built by `ArgumentListParser.makeParseFunction`:
run the positional loop over `readItems`, then hand the remaining stream
to the rest strategy when one is configured. Note that on success the
source returns `immediateArguments: readItems` — the whole input
array. -/
def parseFunction (descriptions : List ParamaterDescription)
    (restStrategy : Option RestStrategy) (readItems : List ReadItem) :
    ParseResult ParsedArguments :=
  match argLoop readItems 0 readItems descriptions with
  | ParseResult.err e => ParseResult.err e
  | ParseResult.thrown m => ParseResult.thrown m
  | ParseResult.ok pos =>
      match restStrategy with
      | none => ParseResult.ok ⟨readItems, none⟩
      | some rp =>
          match runRestStrategy rp ⟨readItems, pos⟩ with
          | ParseResult.ok d => ParseResult.ok ⟨readItems, some d⟩
          | ParseResult.err e => ParseResult.err e
          | ParseResult.thrown m => ParseResult.thrown m

/-- Modelled from the spec: rendering of an array of `CommandResult`
objects inside a JavaScript template string (`${matches}` in `union`):
the array joins its elements with commas and each `CommandResult` class
instance (`Validation.ts`, not under src/, declares no custom rendering)
renders as the default "[object Object]". -/
def jsResultListString (results : List ValidationResult) : String :=
  String.intercalate "," (results.map (fun _ => "[object Object]"))

/-- `union(...predicates)` from the source: evaluate every branch on the
item, succeed when at least one succeeded, and otherwise fail with a
message interpolating the array of branch results. -/
def union (predicates : List PredicateIsParamater) : PredicateIsParamater :=
  fun item =>
    let matchResults := predicates.map (fun predicate => predicate item)
    let oks := matchResults.filter (fun r => r.isOk)
    if oks.length > 0 then
      ValidationResult.ok
    else
      ValidationResult.err
        ("The argument must match the paramater description "
          ++ jsResultListString matchResults)

/-! ### Concrete descriptions used by example inputs -/

/-- The `dry-run` flag keyword of the kick command. -/
def dryRunDescription : KeywordPropertyDescription :=
  { name := "dry-run", acceptor := stringPresentationType, isFlag := true }

/-- The `room` value keyword of the kick command. -/
def roomDescription : KeywordPropertyDescription :=
  { name := "room", acceptor := stringPresentationType, isFlag := false }

/-- A `KeywordsDescription` in which `dry-run` is a flag and `room` is
a non-flag keyword. -/
def kickKeywords : KeywordsDescription :=
  ⟨[("dry-run", dryRunDescription), ("room", roomDescription)], false⟩

/-- A positional parameter accepting any string token. -/
def userDescription : ParamaterDescription :=
  { name := "user", acceptor := stringPresentationType }

/-- A keyword declaration whose name collides with the fixed `rest`
property of `DestructableRest`. -/
def restKeywordDescription : KeywordPropertyDescription :=
  { name := "rest", acceptor := stringPresentationType, isFlag := false }

/-- An example presentation-type validator accepting one fixed user id. -/
def userIdValidator : PredicateIsParamater :=
  simpleTypeValidator "UserID" (fun it => it == ReadItem.value "@alice:example.org")

/-- An example presentation-type validator accepting one fixed room id. -/
def roomIdValidator : PredicateIsParamater :=
  simpleTypeValidator "RoomID" (fun it => it == ReadItem.value "!room:example.org")

/-- Whether the first character list is an initial segment of the second. -/
def leadsWith : List Char → List Char → Bool
  | [], _ => true
  | _ :: _, [] => false
  | a :: as, b :: bs => a == b && leadsWith as bs

/-- Whether the first character list occurs contiguously in the second. -/
def occursIn (needle : List Char) : List Char → Bool
  | [] => leadsWith needle []
  | b :: bs => leadsWith needle (b :: bs) || occursIn needle bs

/-! ### Association-list lemmas for `DestructableRest` -/

lemma find_setProp_self (props : List (String × RestProperty)) (n : String) (v : RestProperty) :
    ((setProp props n v).find? (fun e => e.1 == n)).map (fun e => e.2) = some v := by
  induction props with
  | nil => simp [setProp, List.find?]
  | cons e tl ih =>
      by_cases he : (e.1 == n) = true
      · simp [setProp, he, List.find?]
      · simp only [setProp, he, if_false, Bool.false_eq_true]
        simp only [List.find?, he]
        exact ih

lemma find_setProp_other (props : List (String × RestProperty)) (n m : String)
    (v : RestProperty) (h : n ≠ m) :
    (setProp props n v).find? (fun e => e.1 == m) = props.find? (fun e => e.1 == m) := by
  induction props with
  | nil => simp [setProp, List.find?, beq_eq_false_iff_ne.mpr h]
  | cons e tl ih =>
      by_cases he : (e.1 == n) = true
      · have he2 : e.1 = n := eq_of_beq he
        simp [setProp, he, List.find?, he2, beq_eq_false_iff_ne.mpr h]
      · by_cases hm : (e.1 == m) = true
        · simp [setProp, he, List.find?, hm]
        · simp only [setProp, he, if_false, Bool.false_eq_true]
          simp only [List.find?, hm]
          exact ih

lemma get_set_self (d : DestructableRest) (n : String) (v : RestProperty) :
    (d.set n v).get n = some v :=
  find_setProp_self d.props n v

lemma get_set_other (d : DestructableRest) (n m : String) (v : RestProperty) (h : n ≠ m) :
    (d.set n v).get m = d.get m := by
  unfold DestructableRest.set DestructableRest.get
  rw [find_setProp_other d.props n m v h]

/-! ### Claim C1 -/

/-- Claim C1 (refuting evaluation): on the spec's own example, the
keyword parser records `dry-run = "alice"` — a flag keyword *does*
consume the following non-keyword token as its value, because the source
checks for an available value token before consulting `isFlag` — so the
rest collection is `["reason", "text"]` rather than
`["alice", "reason", "text"]` and `keywordValues["dry-run"]` is not
`true`. -/
theorem c1_flag_consumes_value_at_example :
    KeywordParser.parseRest kickKeywords
        ⟨[ReadItem.keyword "dry-run", ReadItem.value "alice", ReadItem.keyword "room",
          ReadItem.value "#x:example.org", ReadItem.value "reason", ReadItem.value "text"], 0⟩ =
      ParseResult.ok
        ⟨[("rest", RestProperty.items [ReadItem.value "reason", ReadItem.value "text"]),
          ("dry-run", RestProperty.item (ReadItem.value "alice")),
          ("room", RestProperty.item (ReadItem.value "#x:example.org"))]⟩ ∧
    DestructableRest.get
        ⟨[("rest", RestProperty.items [ReadItem.value "reason", ReadItem.value "text"]),
          ("dry-run", RestProperty.item (ReadItem.value "alice")),
          ("room", RestProperty.item (ReadItem.value "#x:example.org"))]⟩ "dry-run" ≠
      some RestProperty.flagTrue :=
  ⟨rfl, by decide⟩

/-! ### Claim C2 -/

/-- Claim C2 (refuting evaluation): an unknown keyword designator makes
`KeywordParser.parseRest` throw a `TypeError` (the source reads
properties of the `undefined` description object); it never consults
`allowOtherKeys` and never returns an `UnknownKeyword` error value.
Evaluated both with a following value token and at end of stream,
against a description with no declared keywords and
`allowOtherKeys = false`. -/
theorem c2_unknown_keyword_throws :
    KeywordParser.parseRest ⟨[], false⟩
        ⟨[ReadItem.keyword "unknown", ReadItem.value "x"], 0⟩ =
      ParseResult.thrown
        "TypeError: cannot read properties of undefined (reading name)" ∧
    KeywordParser.parseRest ⟨[], false⟩ ⟨[ReadItem.keyword "unknown"], 0⟩ =
      ParseResult.thrown
        "TypeError: cannot read properties of undefined (reading isFlag)" :=
  ⟨rfl, rfl⟩

/-! ### Claim C7 -/

/-- Claim C7 (refuting evaluation): when every branch of `union` rejects
the token, the failure message interpolates the array of raw
`CommandResult` objects, which renders as "[object Object]" per element;
the resulting message mentions neither of the attempted presentation
type names ("UserID", "RoomID"), so the claim that every attempted type
name is referenced fails. -/
theorem c7_union_message_drops_type_names :
    union [userIdValidator, roomIdValidator] (ReadItem.value "x") =
      ValidationResult.err
        "The argument must match the paramater description [object Object],[object Object]" ∧
    occursIn "UserID".toList
      "The argument must match the paramater description [object Object],[object Object]".toList
      = false ∧
    occursIn "RoomID".toList
      "The argument must match the paramater description [object Object],[object Object]".toList
      = false :=
  ⟨rfl, by decide, by decide⟩

/-! ### Claim C9 -/

lemma restCollect_of_truthy (l : List ReadItem) (h : ∀ it ∈ l, truthy it = true) :
    restCollect l = l := by
  induction l with
  | nil => rfl
  | cons a tl ih =>
      have ha : truthy a = true := h a (by simp)
      simp only [restCollect, ha, if_true, List.cons.injEq, true_and]
      exact ih (fun it hit => h it (by simp [hit]))

/-- Claim C9: on a well-formed remainder — no token of the remainder is
JavaScript-falsy, i.e. no empty-string token, which is what the source's
`while (stream.peekItem())` loop condition distinguishes — the plain
rest parser succeeds and its `rest` field is exactly the remaining
tokens of the stream, verbatim and in order. -/
theorem c9_plain_rest_collects_all (s : ArgumentStream)
    (hwf : ∀ it ∈ s.source.drop s.position, truthy it = true) :
    RestParser.parseRest s =
      ParseResult.ok ⟨[("rest", RestProperty.items (s.source.drop s.position))]⟩ := by
  unfold RestParser.parseRest
  rw [restCollect_of_truthy _ hwf]

/-- Witness for C9 at a concrete stream. -/
theorem c9_witness :
    RestParser.parseRest ⟨[ReadItem.value "alice", ReadItem.keyword "room"], 0⟩ =
      ParseResult.ok
        ⟨[("rest", RestProperty.items [ReadItem.value "alice", ReadItem.keyword "room"])]⟩ :=
  c9_plain_rest_collects_all ⟨[ReadItem.value "alice", ReadItem.keyword "room"], 0⟩
    (by decide)

/-! ### Claim C8 -/

lemma registry_find_append (r : PresentationTypeRegistry) (l2 : PresentationTypeRegistry)
    (p : String × PresentationType → Bool) (h : r.any p = false) :
    (r ++ l2).find? p = l2.find? p := by
  induction r with
  | nil => rfl
  | cons a tl ih =>
      simp only [List.any_cons, Bool.or_eq_false_iff] at h
      simp only [List.cons_append, List.find?, h.1]
      exact ih h.2

/-- Claim C8: for any registry state not containing `n`, the first
registration of `n` succeeds and inserts; a second registration of `n`
fails with the duplicate-type-name error (`DuplicateTypeName`, realised
in the source as a thrown `TypeError` before any mutation); the registry
state after the failed attempt is unchanged, and lookup of `n` still
returns the first registered type. -/
theorem c8_duplicate_registration (r : PresentationTypeRegistry) (n : String)
    (v1 v2 : PresentationType) (h : registryHas r n = false) :
    registerPresentationType r n v1 = (RegistryResult.ok (), r ++ [(n, v1)]) ∧
    (registerPresentationType (r ++ [(n, v1)]) n v2).1 =
      RegistryResult.thrown
        ("presentation type with the name: " ++ n ++ " has already been registered") ∧
    (registerPresentationType (r ++ [(n, v1)]) n v2).2 = r ++ [(n, v1)] ∧
    findPresentationType (r ++ [(n, v1)]) n = RegistryResult.ok v1 := by
  have hhas : registryHas (r ++ [(n, v1)]) n = true := by
    unfold registryHas
    simp [List.any_append]
  have hfind : (r ++ [(n, v1)]).find? (fun e => e.1 == n) = some (n, v1) := by
    rw [registry_find_append r [(n, v1)] (fun e => e.1 == n) h]
    simp [List.find?]
  refine ⟨?_, ?_, ?_, ?_⟩
  · unfold registerPresentationType
    rw [h]
    rfl
  · unfold registerPresentationType
    rw [hhas]
    rfl
  · unfold registerPresentationType
    rw [hhas]
    rfl
  · unfold findPresentationType registryGet
    rw [hfind]
    rfl

/-- Witness for C8: registering "UserID" twice on top of the module-load
registry state. -/
theorem c8_witness :
    registerPresentationType initialRegistry "UserID" ⟨userIdValidator, "UserID"⟩ =
      (RegistryResult.ok (), initialRegistry ++ [("UserID", ⟨userIdValidator, "UserID"⟩)]) ∧
    (registerPresentationType (initialRegistry ++ [("UserID", ⟨userIdValidator, "UserID"⟩)])
        "UserID" ⟨roomIdValidator, "UserID"⟩).1 =
      RegistryResult.thrown
        ("presentation type with the name: " ++ "UserID" ++ " has already been registered") ∧
    (registerPresentationType (initialRegistry ++ [("UserID", ⟨userIdValidator, "UserID"⟩)])
        "UserID" ⟨roomIdValidator, "UserID"⟩).2 =
      initialRegistry ++ [("UserID", ⟨userIdValidator, "UserID"⟩)] ∧
    findPresentationType (initialRegistry ++ [("UserID", ⟨userIdValidator, "UserID"⟩)])
        "UserID" =
      RegistryResult.ok ⟨userIdValidator, "UserID"⟩ :=
  c8_duplicate_registration initialRegistry "UserID" ⟨userIdValidator, "UserID"⟩
    ⟨roomIdValidator, "UserID"⟩ rfl

/-! ### Claim C3 -/

/-- Claim C3 counterexample: with one satisfied positional parameter and
a plain rest strategy, `parse` succeeds but `immediateArguments` is the
whole input `["a", "b"]` — it also contains the token `"b"` that was
handed to the rest strategy — not one token per satisfied positional
parameter. -/
theorem c3_counterexample :
    parseFunction [userDescription] (some RestStrategy.plainRest)
        [ReadItem.value "a", ReadItem.value "b"] =
      ParseResult.ok
        ⟨[ReadItem.value "a", ReadItem.value "b"],
          some ⟨[("rest", RestProperty.items [ReadItem.value "b"])]⟩⟩ ∧
    [ReadItem.value "a", ReadItem.value "b"] ≠ [ReadItem.value "a"] :=
  ⟨rfl, by decide⟩

/-- Claim C3 as amended: whenever `parse` succeeds, the returned
`immediateArguments` is the entire input token sequence (the source
returns `immediateArguments: readItems`), including any tokens consumed
by or left over for the rest strategy. -/
theorem c3_immediate_arguments_whole_input (descriptions : List ParamaterDescription)
    (restStrategy : Option RestStrategy) (readItems : List ReadItem)
    (pa : ParsedArguments)
    (h : parseFunction descriptions restStrategy readItems = ParseResult.ok pa) :
    pa.immediateArguments = readItems := by
  unfold parseFunction at h
  split at h
  · simp at h
  · simp at h
  · split at h
    · injection h with h2
      rw [← h2]
    · split at h
      · injection h with h2
        rw [← h2]
      · simp at h
      · simp at h

/-- Witness for the amended C3 at a concrete parse. -/
theorem c3_witness :
    (ParsedArguments.mk [ReadItem.value "a", ReadItem.value "b"]
        (some ⟨[("rest", RestProperty.items [ReadItem.value "b"])]⟩)).immediateArguments =
      [ReadItem.value "a", ReadItem.value "b"] :=
  c3_immediate_arguments_whole_input [userDescription] (some RestStrategy.plainRest)
    [ReadItem.value "a", ReadItem.value "b"]
    (ParsedArguments.mk [ReadItem.value "a", ReadItem.value "b"]
      (some ⟨[("rest", RestProperty.items [ReadItem.value "b"])]⟩)) rfl

/-! ### Claim C4 -/

lemma argLoop_failfast (src : List ReadItem) (dk : ParamaterDescription)
    (dsPost : List ParamaterDescription) (itemsRest : List ReadItem)
    (hfail : itemsRest = [] ∨ ∃ it tl m, itemsRest = it :: tl ∧
      dk.acceptor.validator it = ValidationResult.err m)
    (dsPre : List ParamaterDescription) (itemsPre : List ReadItem)
    (hsat : List.Forall₂ (fun p it => p.acceptor.validator it = ValidationResult.ok)
      dsPre itemsPre) :
    ∀ pos, ∃ st m,
      argLoop src pos (itemsPre ++ itemsRest) (dsPre ++ dk :: dsPost) =
        ParseResult.err (CommandError.argument dk st m) ∧
      (itemsRest = [] → m = missingParamaterMessage dk.name) := by
  induction hsat with
  | nil =>
      intro pos
      rcases hfail with rfl | ⟨it, tl, m, rfl, hv⟩
      · exact ⟨⟨src, pos⟩, missingParamaterMessage dk.name, rfl, fun _ => rfl⟩
      · refine ⟨⟨src, pos⟩, m, ?_, ?_⟩
        · simp only [List.nil_append, argLoop, hv]
        · intro hcontra
          exact absurd hcontra (List.cons_ne_nil it tl)
  | @cons p itPre dsPre2 itemsPre2 hpit _ ih =>
      intro pos
      obtain ⟨st, m, heq, himp⟩ := ih (pos + 1)
      refine ⟨st, m, ?_, himp⟩
      simp only [List.cons_append, argLoop, hpit]
      exact heq

/-- Claim C4: if the first positional parameters are all satisfied
(`Forall₂` pairs each with the accepted token it consumed) and the next
description `dk` is not — the stream being exhausted, or its next token
failing the validator — then `parse` fails with an error bound exactly
to `dk` (with the missing-parameter message in the exhausted case), and
the later descriptions `dsPost` are never attempted. -/
theorem c4_failfast (dsPre dsPost : List ParamaterDescription)
    (dk : ParamaterDescription) (restStrategy : Option RestStrategy)
    (itemsPre itemsRest : List ReadItem)
    (hsat : List.Forall₂ (fun p it => p.acceptor.validator it = ValidationResult.ok)
      dsPre itemsPre)
    (hfail : itemsRest = [] ∨ ∃ it tl m, itemsRest = it :: tl ∧
      dk.acceptor.validator it = ValidationResult.err m) :
    ∃ st m,
      parseFunction (dsPre ++ dk :: dsPost) restStrategy (itemsPre ++ itemsRest) =
        ParseResult.err (CommandError.argument dk st m) ∧
      (itemsRest = [] → m = missingParamaterMessage dk.name) := by
  obtain ⟨st, m, heq, himp⟩ :=
    argLoop_failfast (itemsPre ++ itemsRest) dk dsPost itemsRest hfail dsPre itemsPre hsat 0
  refine ⟨st, m, ?_, himp⟩
  unfold parseFunction
  rw [heq]

/-- Witness for C4: a single positional parameter with an empty input. -/
theorem c4_witness :
    ∃ st m,
      parseFunction ([] ++ userDescription :: []) none ([] ++ ([] : List ReadItem)) =
        ParseResult.err (CommandError.argument userDescription st m) ∧
      (([] : List ReadItem) = [] → m = missingParamaterMessage userDescription.name) :=
  c4_failfast [] [] userDescription none [] [] List.Forall₂.nil (Or.inl rfl)

/-! ### Claim C5 -/

lemma kwLoop_missing_value (kd : KeywordsDescription) (src : List ReadItem) (k : String)
    (dk : KeywordPropertyDescription) (hk : kd.index k = KeywordsIndexResult.desc dk)
    (hflag : dk.isFlag = false) (post : List ReadItem)
    (hpost : post = [] ∨ ∃ g tl, post = ReadItem.keyword g :: tl)
    (pre : List ReadItem) :
    (∀ it ∈ pre, it.isKeywordItem = false) →
    ∀ (d : DestructableRest) (l : List ReadItem) (pos : Nat),
    d.get "rest" = some (RestProperty.items l) →
    ∃ st,
      kwLoop kd src d pos (pre ++ ReadItem.keyword k :: post) =
        ParseResult.err (CommandError.argument dk.toParamaterDescription st
          (missingKeywordValueMessage dk.name)) := by
  induction pre with
  | nil =>
      intro _ d l pos _
      rcases hpost with rfl | ⟨g, tl, rfl⟩
      · exact ⟨⟨src, pos + 1⟩, by simp [kwLoop, hk, hflag]⟩
      · exact ⟨⟨src, pos + 1⟩, by simp [kwLoop, hk, hflag]⟩
  | cons it pre2 ih =>
      intro hpre d l pos hrest
      cases it with
      | keyword g =>
          have := hpre (ReadItem.keyword g) (by simp)
          simp [ReadItem.isKeywordItem] at this
      | value v =>
          have hpush : d.pushRest (ReadItem.value v) =
              some (d.set "rest" (RestProperty.items (l ++ [ReadItem.value v]))) := by
            unfold DestructableRest.pushRest
            rw [hrest]
          obtain ⟨st, hst⟩ := ih (fun x hx => hpre x (by simp [hx]))
            (d.set "rest" (RestProperty.items (l ++ [ReadItem.value v])))
            (l ++ [ReadItem.value v]) (pos + 1)
            (get_set_self d "rest" (RestProperty.items (l ++ [ReadItem.value v])))
          refine ⟨st, ?_⟩
          simp only [List.cons_append, kwLoop, hpush]
          exact hst

/-- Claim C5: whenever the remainder consists of non-keyword tokens
followed by a designator for a declared non-flag keyword `k` that is
immediately followed by end-of-stream or by another keyword designator,
`KeywordParser.parseRest` fails with the missing-keyword-value error
(`MissingKeywordValue`) bound to `k`'s declared description. -/
theorem c5_missing_keyword_value (kd : KeywordsDescription) (k : String)
    (dk : KeywordPropertyDescription) (s : ArgumentStream) (pre post : List ReadItem)
    (hk : kd.index k = KeywordsIndexResult.desc dk) (hflag : dk.isFlag = false)
    (hpre : ∀ it ∈ pre, it.isKeywordItem = false)
    (hpost : post = [] ∨ ∃ g tl, post = ReadItem.keyword g :: tl)
    (hrem : s.source.drop s.position = pre ++ ReadItem.keyword k :: post) :
    ∃ st,
      KeywordParser.parseRest kd s =
        ParseResult.err (CommandError.argument dk.toParamaterDescription st
          (missingKeywordValueMessage dk.name)) := by
  unfold KeywordParser.parseRest
  rw [hrem]
  exact kwLoop_missing_value kd s.source k dk hk hflag post hpost pre hpre
    ⟨[("rest", RestProperty.items [])]⟩ [] s.position rfl

/-- Witness for C5: `["--room", "--dry-run"]` fails bound to `room`. -/
theorem c5_witness :
    ∃ st,
      KeywordParser.parseRest kickKeywords
          ⟨[ReadItem.keyword "room", ReadItem.keyword "dry-run"], 0⟩ =
        ParseResult.err (CommandError.argument roomDescription.toParamaterDescription st
          (missingKeywordValueMessage roomDescription.name)) :=
  c5_missing_keyword_value kickKeywords "room" roomDescription
    ⟨[ReadItem.keyword "room", ReadItem.keyword "dry-run"], 0⟩ []
    [ReadItem.keyword "dry-run"] rfl rfl (by simp)
    (Or.inr ⟨"dry-run", [], rfl⟩) rfl

/-! ### Claim C6 -/

lemma length_filter_pos_iff {α : Type} (f : α → Bool) (l : List α) :
    0 < (l.filter f).length ↔ ∃ a ∈ l, f a = true := by
  induction l with
  | nil => simp
  | cons a tl ih =>
      by_cases h : f a = true
      · simp [List.filter_cons, h]
      · simp only [List.filter_cons, h, if_false, Bool.false_eq_true, List.mem_cons]
        rw [ih]
        constructor
        · rintro ⟨x, hx, hfx⟩
          exact ⟨x, Or.inr hx, hfx⟩
        · rintro ⟨x, hx | hx, hfx⟩
          · rw [hx] at hfx
            exact absurd hfx h
          · exact ⟨x, hx, hfx⟩

/-- Claim C6: `union` applied to a token succeeds if and only if at
least one of its branch validators succeeds on that token. -/
theorem c6_union_succeeds_iff (predicates : List PredicateIsParamater) (item : ReadItem) :
    (union predicates item).isOk = true ↔
      ∃ p ∈ predicates, (p item).isOk = true := by
  unfold union
  by_cases h :
      0 < ((predicates.map (fun predicate => predicate item)).filter
        (fun r => r.isOk)).length
  · simp only [gt_iff_lt, h, if_true]
    constructor
    · intro _
      obtain ⟨r, hr, hok⟩ := (length_filter_pos_iff _ _).mp h
      obtain ⟨p, hp, rfl⟩ := List.mem_map.mp hr
      exact ⟨p, hp, hok⟩
    · intro _
      rfl
  · simp only [gt_iff_lt, h, if_false]
    constructor
    · intro hcontra
      simp [ValidationResult.isOk] at hcontra
    · rintro ⟨p, hp, hok⟩
      exact absurd
        ((length_filter_pos_iff _ _).mpr
          ⟨p item, List.mem_map.mpr ⟨p, hp, rfl⟩, hok⟩) h

/-! ### Claim C10 -/

/-- The `rest` property of a `DestructableRest` holds something other
than the leftover-token array (a single recorded item or the flag
boolean). -/
def restNonArray (d : DestructableRest) : Prop :=
  ∃ v, d.get "rest" = some v ∧ ∀ l, v ≠ RestProperty.items l

lemma restNonArray_set (d : DestructableRest) (n : String) (v : RestProperty)
    (hd : restNonArray d) (hv : ∀ l, v ≠ RestProperty.items l) :
    restNonArray (d.set n v) := by
  by_cases hn : n = "rest"
  · subst hn
    exact ⟨v, get_set_self d "rest" v, hv⟩
  · obtain ⟨w, hw, hnw⟩ := hd
    exact ⟨w, by rw [get_set_other d n "rest" v hn]; exact hw, hnw⟩

lemma kwLoop_preserves_restNonArray (kd : KeywordsDescription) (src : List ReadItem) :
    ∀ (n : Nat) (rem : List ReadItem), rem.length ≤ n →
    ∀ (d : DestructableRest) (pos : Nat) (d2 : DestructableRest),
    restNonArray d → kwLoop kd src d pos rem = ParseResult.ok d2 → restNonArray d2 := by
  intro n
  induction n with
  | zero =>
      intro rem hlen d pos d2 hd hrun
      have hnil : rem = [] := List.length_eq_zero.mp (Nat.le_zero.mp hlen)
      subst hnil
      simp only [kwLoop] at hrun
      injection hrun with h2
      rw [← h2]
      exact hd
  | succ n ih =>
      intro rem hlen d pos d2 hd hrun
      cases rem with
      | nil =>
          simp only [kwLoop] at hrun
          injection hrun with h2
          rw [← h2]
          exact hd
      | cons it tl =>
          cases it with
          | value v =>
              obtain ⟨w, hw, hnw⟩ := hd
              have hpush : d.pushRest (ReadItem.value v) = none := by
                unfold DestructableRest.pushRest
                rw [hw]
                cases w with
                | items l => exact absurd rfl (hnw l)
                | item i => rfl
                | flagTrue => rfl
              simp [kwLoop, hpush] at hrun
          | keyword g =>
              cases tl with
              | nil =>
                  cases hidx : kd.index g with
                  | booleanProp b => simp [kwLoop, hidx] at hrun
                  | undefinedProp => simp [kwLoop, hidx] at hrun
                  | desc descr =>
                      by_cases hflag : descr.isFlag = true
                      · have hrec :
                            kwLoop kd src (d.set descr.name RestProperty.flagTrue)
                              (pos + 1) [] = ParseResult.ok d2 := by
                          simpa [kwLoop, hidx, hflag] using hrun
                        exact ih [] (by simp) _ (pos + 1) d2
                          (restNonArray_set d descr.name RestProperty.flagTrue hd
                            (fun l h => RestProperty.noConfusion h)) hrec
                      · simp [kwLoop, hidx, hflag] at hrun
              | cons it2 tl2 =>
                  cases it2 with
                  | value v =>
                      cases hidx : kd.index g with
                      | booleanProp b => simp [kwLoop, hidx] at hrun
                      | undefinedProp => simp [kwLoop, hidx] at hrun
                      | desc descr =>
                          have hrec :
                              kwLoop kd src
                                (d.set descr.name (RestProperty.item (ReadItem.value v)))
                                (pos + 2) tl2 = ParseResult.ok d2 := by
                            simpa [kwLoop, hidx] using hrun
                          have hlen2 : tl2.length ≤ n := by
                            simp only [List.length_cons] at hlen
                            omega
                          exact ih tl2 hlen2 _ (pos + 2) d2
                            (restNonArray_set d descr.name
                              (RestProperty.item (ReadItem.value v)) hd
                              (fun l h => RestProperty.noConfusion h)) hrec
                  | keyword h2 =>
                      cases hidx : kd.index g with
                      | booleanProp b => simp [kwLoop, hidx] at hrun
                      | undefinedProp => simp [kwLoop, hidx] at hrun
                      | desc descr =>
                          by_cases hflag : descr.isFlag = true
                          · have hrec :
                                kwLoop kd src (d.set descr.name RestProperty.flagTrue)
                                  (pos + 1) (ReadItem.keyword h2 :: tl2) =
                                  ParseResult.ok d2 := by
                              simpa [kwLoop, hidx, hflag] using hrun
                            have hlen2 : (ReadItem.keyword h2 :: tl2).length ≤ n := by
                              simp only [List.length_cons] at hlen ⊢
                              omega
                            exact ih (ReadItem.keyword h2 :: tl2) hlen2 _ (pos + 1) d2
                              (restNonArray_set d descr.name RestProperty.flagTrue hd
                                (fun l h => RestProperty.noConfusion h)) hrec
                          · simp [kwLoop, hidx, hflag] at hrun

lemma kwLoop_rest_designator_overwrites (kd : KeywordsDescription) (src : List ReadItem)
    (dr : KeywordPropertyDescription) (hk : kd.index "rest" = KeywordsIndexResult.desc dr)
    (hname : dr.name = "rest") :
    ∀ (n : Nat) (rem : List ReadItem), rem.length ≤ n →
    ∀ (d : DestructableRest) (pos : Nat) (d2 : DestructableRest),
    ReadItem.keyword "rest" ∈ rem →
    kwLoop kd src d pos rem = ParseResult.ok d2 → restNonArray d2 := by
  intro n
  induction n with
  | zero =>
      intro rem hlen d pos d2 hmem _
      have hnil : rem = [] := List.length_eq_zero.mp (Nat.le_zero.mp hlen)
      subst hnil
      simp at hmem
  | succ n ih =>
      intro rem hlen d pos d2 hmem hrun
      cases rem with
      | nil => simp at hmem
      | cons it tl =>
          cases it with
          | value v =>
              have hmem2 : ReadItem.keyword "rest" ∈ tl := by
                rcases List.mem_cons.mp hmem with h | h
                · exact absurd h (by simp)
                · exact h
              cases hp : d.pushRest (ReadItem.value v) with
              | none => simp [kwLoop, hp] at hrun
              | some d3 =>
                  have hrec : kwLoop kd src d3 (pos + 1) tl = ParseResult.ok d2 := by
                    simpa [kwLoop, hp] using hrun
                  have hlen2 : tl.length ≤ n := by
                    simp only [List.length_cons] at hlen
                    omega
                  exact ih tl hlen2 d3 (pos + 1) d2 hmem2 hrec
          | keyword g =>
              by_cases hg : g = "rest"
              · subst hg
                cases tl with
                | nil =>
                    by_cases hflag : dr.isFlag = true
                    · have hrec :
                          kwLoop kd src (d.set dr.name RestProperty.flagTrue)
                            (pos + 1) [] = ParseResult.ok d2 := by
                        simpa [kwLoop, hk, hflag] using hrun
                      refine kwLoop_preserves_restNonArray kd src n [] (by simp)
                        _ (pos + 1) d2 ?_ hrec
                      refine ⟨RestProperty.flagTrue, ?_, fun l h => RestProperty.noConfusion h⟩
                      rw [hname]
                      exact get_set_self d "rest" RestProperty.flagTrue
                    · simp [kwLoop, hk, hflag] at hrun
                | cons it2 tl2 =>
                    cases it2 with
                    | value v =>
                        have hrec :
                            kwLoop kd src
                              (d.set dr.name (RestProperty.item (ReadItem.value v)))
                              (pos + 2) tl2 = ParseResult.ok d2 := by
                          simpa [kwLoop, hk] using hrun
                        have hlen2 : tl2.length ≤ n := by
                          simp only [List.length_cons] at hlen
                          omega
                        refine kwLoop_preserves_restNonArray kd src n tl2 hlen2
                          _ (pos + 2) d2 ?_ hrec
                        refine ⟨RestProperty.item (ReadItem.value v), ?_,
                          fun l h => RestProperty.noConfusion h⟩
                        rw [hname]
                        exact get_set_self d "rest" (RestProperty.item (ReadItem.value v))
                    | keyword h2 =>
                        by_cases hflag : dr.isFlag = true
                        · have hrec :
                              kwLoop kd src (d.set dr.name RestProperty.flagTrue)
                                (pos + 1) (ReadItem.keyword h2 :: tl2) =
                                ParseResult.ok d2 := by
                            simpa [kwLoop, hk, hflag] using hrun
                          have hlen2 : (ReadItem.keyword h2 :: tl2).length ≤ n := by
                            simp only [List.length_cons] at hlen ⊢
                            omega
                          refine kwLoop_preserves_restNonArray kd src n
                            (ReadItem.keyword h2 :: tl2) hlen2 _ (pos + 1) d2 ?_ hrec
                          refine ⟨RestProperty.flagTrue, ?_,
                            fun l h => RestProperty.noConfusion h⟩
                          rw [hname]
                          exact get_set_self d "rest" RestProperty.flagTrue
                        · simp [kwLoop, hk, hflag] at hrun
              · have hmem2 : ReadItem.keyword "rest" ∈ tl := by
                  rcases List.mem_cons.mp hmem with h | h
                  · injection h with hh
                    exact absurd hh.symm hg
                  · exact h
                cases tl with
                | nil => simp at hmem2
                | cons it2 tl2 =>
                    cases it2 with
                    | value v =>
                        cases hidx : kd.index g with
                        | booleanProp b => simp [kwLoop, hidx] at hrun
                        | undefinedProp => simp [kwLoop, hidx] at hrun
                        | desc dg =>
                            have hmem3 : ReadItem.keyword "rest" ∈ tl2 := by
                              rcases List.mem_cons.mp hmem2 with h | h
                              · exact absurd h (by simp)
                              · exact h
                            have hrec :
                                kwLoop kd src
                                  (d.set dg.name (RestProperty.item (ReadItem.value v)))
                                  (pos + 2) tl2 = ParseResult.ok d2 := by
                              simpa [kwLoop, hidx] using hrun
                            have hlen2 : tl2.length ≤ n := by
                              simp only [List.length_cons] at hlen
                              omega
                            exact ih tl2 hlen2 _ (pos + 2) d2 hmem3 hrec
                    | keyword h2 =>
                        cases hidx : kd.index g with
                        | booleanProp b => simp [kwLoop, hidx] at hrun
                        | undefinedProp => simp [kwLoop, hidx] at hrun
                        | desc dg =>
                            by_cases hflag : dg.isFlag = true
                            · have hrec :
                                  kwLoop kd src (d.set dg.name RestProperty.flagTrue)
                                    (pos + 1) (ReadItem.keyword h2 :: tl2) =
                                    ParseResult.ok d2 := by
                                simpa [kwLoop, hidx, hflag] using hrun
                              have hlen2 : (ReadItem.keyword h2 :: tl2).length ≤ n := by
                                simp only [List.length_cons] at hlen ⊢
                                omega
                              exact ih (ReadItem.keyword h2 :: tl2) hlen2 _ (pos + 1) d2
                                hmem2 hrec
                            · simp [kwLoop, hidx, hflag] at hrun

/-- Claim C10: if the governing `KeywordsDescription` declares a keyword
named "rest" and the remainder contains a designator for it, then
whenever `KeywordParser.parseRest` returns a bundle, the bundle's `rest`
property has been overwritten by the keyword's recorded value (a single
item or the flag boolean) and no longer holds the leftover-token
array. -/
theorem c10_rest_key_overwritten (kd : KeywordsDescription)
    (dr : KeywordPropertyDescription) (s : ArgumentStream) (d2 : DestructableRest)
    (hk : kd.index "rest" = KeywordsIndexResult.desc dr) (hname : dr.name = "rest")
    (hmem : ReadItem.keyword "rest" ∈ s.source.drop s.position)
    (hrun : KeywordParser.parseRest kd s = ParseResult.ok d2) :
    ∃ v, d2.get "rest" = some v ∧ ∀ l, v ≠ RestProperty.items l :=
  kwLoop_rest_designator_overwrites kd s.source dr hk hname
    (s.source.drop s.position).length (s.source.drop s.position) le_rfl
    ⟨[("rest", RestProperty.items [])]⟩ s.position d2 hmem hrun

/-- Witness for C10: declaring keyword "rest" and parsing
`["--rest", "v"]` yields a bundle whose `rest` holds the recorded value
`"v"`, not a token array. -/
theorem c10_witness :
    ∃ v,
      DestructableRest.get ⟨[("rest", RestProperty.item (ReadItem.value "v"))]⟩ "rest" =
        some v ∧ ∀ l, v ≠ RestProperty.items l :=
  c10_rest_key_overwritten ⟨[("rest", restKeywordDescription)], false⟩
    restKeywordDescription ⟨[ReadItem.keyword "rest", ReadItem.value "v"], 0⟩
    ⟨[("rest", RestProperty.item (ReadItem.value "v"))]⟩ rfl rfl (by decide) rfl

end Draupnir
